import Mathlib

/-!
# run_lighthouse.mjs

A shallow embedding of `src/agent/tools/run_lighthouse.mjs`: the script reads two
positional arguments and one environment variable, launches a browser, runs one audit,
writes `JSON.stringify(runnerResult.lhr, null, 2)` to a file and kills the browser.

The external engines (`launch`, `lighthouse`, `fs.writeFileSync`, `chrome.kill`) are
fields of a `World`; a run of the script is a trace of the calls it made, the file
system it leaves behind and the way the promise of the async function settled.
-/

namespace RunLighthouse

/-! ## JavaScript values -/

/-- A JavaScript string, as its sequence of UTF-16 code units. -/
abbrev Str := List Nat

/-- The code units of a string literal of the source (all of them are ASCII). -/
def lit (s : String) : Str := s.toList.map Char.toNat

/-- The JavaScript values the script handles: the values of JSON and `undefined`.
`N` is the type of Number values, compared as `===` compares them (the two zeros are
one number). An object is the list of its own enumerable properties in the order of
their creation, which is the order `JSON.stringify` writes them in; the place integer
keys take in that order is not modelled. -/
inductive JSVal (N : Type) where
  | undefined
  | null
  | bool (b : Bool)
  | num (n : N)
  | str (s : Str)
  | arr (xs : List (JSVal N))
  | obj (ms : List (Str × JSVal N))

/-- What the runtime does with Number values, which are floating point and stay
abstract here: `Number.isFinite`, `Number::toString`, and the conversion of a JSON
number token to a Number (`none` when the token is not a number of the JSON grammar). -/
structure NumberOps (N : Type) where
  isFinite : N → Bool
  toString : N → Str
  parse : Str → Option N

/-- A thrown JavaScript error. -/
structure Err where
  name : String
  message : String
deriving DecidableEq, Repr

variable {N : Type}

/-- `v[key]` for a key that no built-in prototype defines (such as `lhr`, `port` or
`chromePath`): a TypeError on `undefined` and `null`, the own property of an object,
`undefined` everywhere else. -/
def getProp (v : JSVal N) (key : Str) : Except Err (JSVal N) :=
  match v with
  | .undefined => .error ⟨"TypeError", "Cannot read properties of undefined"⟩
  | .null => .error ⟨"TypeError", "Cannot read properties of null"⟩
  | .obj ms =>
    match ms.lookup key with
    | some x => .ok x
    | none => .ok .undefined
  | _ => .ok .undefined

/-- Whether an object value has an own property `key`. -/
def hasOwn (v : JSVal N) (key : Str) : Bool :=
  match v with
  | .obj ms => (ms.lookup key).isSome
  | _ => false

/-- A string-or-undefined as a value. -/
def ofOption : Option Str → JSVal N
  | some s => .str s
  | none => .undefined

/-! ## JSON.stringify(value, null, 2) -/

namespace JSON

/-- A lower-case hexadecimal digit. -/
def hexDigit (d : Nat) : Nat := if d < 10 then 48 + d else 87 + d

/-- UnicodeEscape: a backslash, `u` and four lower-case hexadecimal digits. -/
def unicodeEscape (c : Nat) : Str :=
  [92, 117, hexDigit (c / 4096 % 16), hexDigit (c / 256 % 16), hexDigit (c / 16 % 16),
    hexDigit (c % 16)]

def isLeadingSurrogate (c : Nat) : Bool := 0xD800 ≤ c && c ≤ 0xDBFF

def isTrailingSurrogate (c : Nat) : Bool := 0xDC00 ≤ c && c ≤ 0xDFFF

/-- The body of QuoteJSONString: the two-character escapes of the table, a Unicode
escape for the other control characters and for a lone surrogate, everything else
(a surrogate pair included) as it is. -/
def quoteChars : Str → Str
  | [] => []
  | c :: rest =>
    if c = 8 then [92, 98] ++ quoteChars rest
    else if c = 9 then [92, 116] ++ quoteChars rest
    else if c = 10 then [92, 110] ++ quoteChars rest
    else if c = 12 then [92, 102] ++ quoteChars rest
    else if c = 13 then [92, 114] ++ quoteChars rest
    else if c = 34 then [92, 34] ++ quoteChars rest
    else if c = 92 then [92, 92] ++ quoteChars rest
    else if c < 32 then unicodeEscape c ++ quoteChars rest
    else if isLeadingSurrogate c then
      match rest with
      | d :: rest2 =>
        if isTrailingSurrogate d then c :: d :: quoteChars rest2
        else unicodeEscape c ++ quoteChars (d :: rest2)
      | [] => unicodeEscape c
    else if isTrailingSurrogate c then unicodeEscape c ++ quoteChars rest
    else c :: quoteChars rest

/-- QuoteJSONString. -/
def quoteJSONString (s : Str) : Str := 34 :: (quoteChars s ++ [34])

/-- An indentation of `n` spaces. -/
def spaces (n : Nat) : Str := List.replicate n 32

/-- The strings of a list joined with a separator. -/
def joinWith (sep : Str) : List Str → Str
  | [] => []
  | [p] => p
  | p :: q :: ps => p ++ sep ++ joinWith sep (q :: ps)

/-- The end of SerializeJSONArray and SerializeJSONObject for a gap of `gap` spaces:
the two brackets alone when there is no part; the parts between commas when the gap
is empty; otherwise each part on a line of its own, indented by the gap more than
`stepback`, and the closing bracket on a line at `stepback`. -/
def bracket (gap : Nat) (opener closer : Nat) (stepback : Nat) (parts : List Str) : Str :=
  match parts with
  | [] => [opener, closer]
  | _ :: _ =>
    if gap = 0 then [opener] ++ joinWith [44] parts ++ [closer]
    else
      [opener, 10] ++ spaces (stepback + gap)
        ++ joinWith ([44, 10] ++ spaces (stepback + gap)) parts
        ++ [10] ++ spaces stepback ++ [closer]

mutual
/-- SerializeJSONProperty at indentation `indent`, with no replacer function, no
property list and a gap of `gap` spaces; `none` is `undefined`. -/
def serializeJSONProperty (ops : NumberOps N) (gap indent : Nat) : JSVal N → Option Str
  | .undefined => none
  | .null => some (lit "null")
  | .bool true => some (lit "true")
  | .bool false => some (lit "false")
  | .str s => some (quoteJSONString s)
  | .num n => some (if ops.isFinite n then ops.toString n else lit "null")
  | .arr xs => some (bracket gap 91 93 indent (serializeElements ops gap (indent + gap) xs))
  | .obj ms => some (bracket gap 123 125 indent (serializeMembers ops gap (indent + gap) ms))
/-- The parts of SerializeJSONArray: an element that serializes to `undefined`
is written `null`. -/
def serializeElements (ops : NumberOps N) (gap indent : Nat) : List (JSVal N) → List Str
  | [] => []
  | x :: xs =>
    (match serializeJSONProperty ops gap indent x with
      | some s => s
      | none => lit "null") :: serializeElements ops gap indent xs
/-- The parts of SerializeJSONObject: a property that serializes to `undefined`
is left out; a space follows the colon unless the gap is empty. -/
def serializeMembers (ops : NumberOps N) (gap indent : Nat) :
    List (Str × JSVal N) → List Str
  | [] => []
  | (k, x) :: ms =>
    match serializeJSONProperty ops gap indent x with
    | some s =>
      (quoteJSONString k ++ (if gap = 0 then [58] else [58, 32]) ++ s)
        :: serializeMembers ops gap indent ms
    | none => serializeMembers ops gap indent ms
end

/-- `JSON.stringify(value, null, space)` for a `space` that is a number: the replacer
`null` calls no function and filters no property, and the gap is `space` spaces, ten
at most; `none` is `undefined`. -/
def stringify (ops : NumberOps N) (value : JSVal N) (space : Nat) : Option Str :=
  serializeJSONProperty ops (min space 10) 0 value

/-! ## JSON.parse(text) -/

/-- JSONWhiteSpace: tab, line feed, carriage return, space. -/
def isWhitespace (c : Nat) : Bool := c = 9 || c = 10 || c = 13 || c = 32

def skipWhitespace : Str → Str
  | [] => []
  | c :: rest => if isWhitespace c then skipWhitespace rest else c :: rest

/-- The input after `word`, when the input starts with it. -/
def stripWord : Str → Str → Option Str
  | [], input => some input
  | _ :: _, [] => none
  | c :: cs, d :: ds => if c = d then stripWord cs ds else none

/-- The value of a hexadecimal digit of either case. -/
def hexValue (c : Nat) : Option Nat :=
  if 48 ≤ c ∧ c ≤ 57 then some (c - 48)
  else if 97 ≤ c ∧ c ≤ 102 then some (c - 87)
  else if 65 ≤ c ∧ c ≤ 70 then some (c - 55)
  else none

/-- The character a single-character JSONEscapeSequence stands for. -/
def simpleEscape (e : Nat) : Option Nat :=
  if e = 34 then some 34
  else if e = 47 then some 47
  else if e = 92 then some 92
  else if e = 98 then some 8
  else if e = 102 then some 12
  else if e = 110 then some 10
  else if e = 114 then some 13
  else if e = 116 then some 9
  else none

/-- The characters of a JSONString after its opening quote, up to the closing one:
the string they stand for and the input after the closing quote. -/
def parseStringChars : Str → Option (Str × Str)
  | [] => none
  | c :: rest =>
    if c = 34 then some ([], rest)
    else if c = 92 then
      match rest with
      | [] => none
      | e :: rest1 =>
        if e = 117 then
          match rest1 with
          | h1 :: h2 :: h3 :: h4 :: rest2 =>
            match hexValue h1, hexValue h2, hexValue h3, hexValue h4 with
            | some a, some b, some c, some d =>
              match parseStringChars rest2 with
              | some (s, r) => some ((4096 * a + 256 * b + 16 * c + d) :: s, r)
              | none => none
            | _, _, _, _ => none
          | _ => none
        else
          match simpleEscape e with
          | some u =>
            match parseStringChars rest1 with
            | some (s, r) => some (u :: s, r)
            | none => none
          | none => none
    else if c < 32 then none
    else
      match parseStringChars rest with
      | some (s, r) => some (c :: s, r)
      | none => none

def isDigit (c : Nat) : Bool := 48 ≤ c && c ≤ 57

/-- A character that can occur in a JSON number: a digit, a sign, the point or an
exponent mark. -/
def isNumberChar (c : Nat) : Bool := isDigit c || c = 43 || c = 45 || c = 46 || c = 69 || c = 101

/-- A character a JSON number can start with: a digit or the minus sign. -/
def startsNumber (c : Nat) : Bool := isDigit c || c = 45

/-- CreateDataProperty on a property list: the value of an existing key is replaced
where the key stands, a new key goes last. -/
def defineProperty : List (Str × JSVal N) → Str × JSVal N → List (Str × JSVal N)
  | [], kv => [kv]
  | m :: ms, kv => if m.1 = kv.1 then kv :: ms else m :: defineProperty ms kv

mutual
/-- A JSON value at the head of the input, after optional white space: the value and
the input that follows it. A number is the longest run of number characters, which
`NumberOps.parse` checks against the grammar and converts. The fuel bounds the nesting
and the number of elements. -/
def parseValue (ops : NumberOps N) : Nat → Str → Option (JSVal N × Str)
  | 0, _ => none
  | fuel + 1, input =>
    match skipWhitespace input with
    | [] => none
    | c :: rest =>
      if c = 110 then
        match stripWord (lit "ull") rest with
        | some r => some (.null, r)
        | none => none
      else if c = 116 then
        match stripWord (lit "rue") rest with
        | some r => some (.bool true, r)
        | none => none
      else if c = 102 then
        match stripWord (lit "alse") rest with
        | some r => some (.bool false, r)
        | none => none
      else if c = 34 then
        match parseStringChars rest with
        | some (s, r) => some (.str s, r)
        | none => none
      else if c = 91 then
        match skipWhitespace rest with
        | [] => none
        | d :: rest1 =>
          if d = 93 then some (.arr [], rest1)
          else
            match parseElements ops fuel (d :: rest1) with
            | some (xs, r) => some (.arr xs, r)
            | none => none
      else if c = 123 then
        match skipWhitespace rest with
        | [] => none
        | d :: rest1 =>
          if d = 125 then some (.obj [], rest1)
          else
            match parseMembers ops fuel (d :: rest1) with
            | some (ms, r) => some (.obj (ms.foldl defineProperty []), r)
            | none => none
      else if startsNumber c then
        match ops.parse ((c :: rest).takeWhile isNumberChar) with
        | some n => some (.num n, (c :: rest).dropWhile isNumberChar)
        | none => none
      else none
/-- The elements of a non-empty array, up to the closing bracket. -/
def parseElements (ops : NumberOps N) : Nat → Str → Option (List (JSVal N) × Str)
  | 0, _ => none
  | fuel + 1, input =>
    match parseValue ops fuel input with
    | none => none
    | some (v, rest) =>
      match skipWhitespace rest with
      | [] => none
      | c :: rest1 =>
        if c = 44 then
          match parseElements ops fuel rest1 with
          | some (vs, r) => some (v :: vs, r)
          | none => none
        else if c = 93 then some ([v], rest1)
        else none
/-- The members of a non-empty object, in the order of the text, up to the closing
brace. -/
def parseMembers (ops : NumberOps N) : Nat → Str → Option (List (Str × JSVal N) × Str)
  | 0, _ => none
  | fuel + 1, input =>
    match skipWhitespace input with
    | [] => none
    | q :: rest =>
      if q = 34 then
        match parseStringChars rest with
        | none => none
        | some (k, rest1) =>
          match skipWhitespace rest1 with
          | [] => none
          | c :: rest2 =>
            if c = 58 then
              match parseValue ops fuel rest2 with
              | none => none
              | some (v, rest3) =>
                match skipWhitespace rest3 with
                | [] => none
                | d :: rest4 =>
                  if d = 44 then
                    match parseMembers ops fuel rest4 with
                    | some (ms, r) => some ((k, v) :: ms, r)
                    | none => none
                  else if d = 125 then some ([(k, v)], rest4)
                  else none
            else none
      else none
end

/-- `JSON.parse(text)`; `none` is a SyntaxError. The recursion of the parser is
bounded by the length of the text. -/
def parse (ops : NumberOps N) (text : Str) : Option (JSVal N) :=
  match parseValue ops (text.length + 1) text with
  | some (v, rest) =>
    match skipWhitespace rest with
    | [] => some v
    | _ :: _ => none
  | none => none

/-! ## JSON documents -/

mutual
/-- A JSON document: no `undefined`, no number that is not finite, and the keys of
each object pairwise distinct (as the keys of an object are). -/
def isJson (ops : NumberOps N) : JSVal N → Bool
  | .undefined => false
  | .null => true
  | .bool _ => true
  | .num n => ops.isFinite n
  | .str _ => true
  | .arr xs => allJson ops xs
  | .obj ms => membersJson ops ms
def allJson (ops : NumberOps N) : List (JSVal N) → Bool
  | [] => true
  | x :: xs => isJson ops x && allJson ops xs
def membersJson (ops : NumberOps N) : List (Str × JSVal N) → Bool
  | [] => true
  | (k, x) :: ms => isJson ops x && !(ms.map Prod.fst).contains k && membersJson ops ms
end

mutual
/-- Fuel that is enough to parse the text of a value. -/
def need : JSVal N → Nat
  | .arr xs => 1 + needElements xs
  | .obj ms => 1 + needMembers ms
  | _ => 1
def needElements : List (JSVal N) → Nat
  | [] => 0
  | x :: xs => 1 + need x + needElements xs
def needMembers : List (Str × JSVal N) → Nat
  | [] => 0
  | (_, x) :: ms => 1 + need x + needMembers ms
end

/-- What the round trip asks of the Number values of a runtime: the text of a finite
number is a token that starts as a number does and is made of number characters, and
that token converts back to the number. `Number::toString` is specified to give a
text that converts back to the same number, up to the sign of zero: `-0` is written
`0`, and `0 === -0`. -/
structure Lawful (ops : NumberOps N) : Prop where
  token : ∀ n, ops.isFinite n = true →
    ∃ c cs, ops.toString n = c :: cs ∧ startsNumber c = true ∧ cs.all isNumberChar = true
  roundtrip : ∀ n, ops.isFinite n = true → ops.parse (ops.toString n) = some n

end JSON

/-! ## The world of the script -/

/-- The handle `launch` resolves to: the browser process, the debugging port it
exposes. Its `kill` is `World.kill`. -/
structure Chrome (N : Type) where
  pid : Nat
  port : JSVal N

/-- The bytes of a file. -/
abbrev Bytes := List Nat

/-- The UTF-8 bytes of a code point. -/
def utf8CodePoint (c : Nat) : Bytes :=
  if c < 0x80 then [c]
  else if c < 0x800 then [0xC0 + c / 64, 0x80 + c % 64]
  else if c < 0x10000 then [0xE0 + c / 4096, 0x80 + c / 64 % 64, 0x80 + c % 64]
  else [0xF0 + c / 262144, 0x80 + c / 4096 % 64, 0x80 + c / 64 % 64, 0x80 + c % 64]

/-- The bytes `fs.writeFileSync` writes for a string, its UTF-8 encoding: a surrogate
pair is one code point of four bytes, a lone surrogate is written as U+FFFD. -/
def utf8Encode : Str → Bytes
  | [] => []
  | c :: rest =>
    if JSON.isLeadingSurrogate c then
      match rest with
      | d :: rest2 =>
        if JSON.isTrailingSurrogate d then
          utf8CodePoint (0x10000 + (c - 0xD800) * 1024 + (d - 0xDC00)) ++ utf8Encode rest2
        else [0xEF, 0xBF, 0xBD] ++ utf8Encode (d :: rest2)
      | [] => [0xEF, 0xBF, 0xBD]
    else if JSON.isTrailingSurrogate c then [0xEF, 0xBF, 0xBD] ++ utf8Encode rest
    else utf8CodePoint c ++ utf8Encode rest

/-- The file system as the script sees and changes it: the bytes of the file each path
names. What the browser and the audit engine do to their own files is not part of it. -/
abbrev Files := Str → Option Bytes

/-- A call of the script to one of the engines it orchestrates. -/
inductive Event (N : Type) where
  | launch (config : JSVal N)
  | lighthouse (url : JSVal N) (options : JSVal N)
  | writeFileSync (path : Str) (data : Option Str)
  | kill (chrome : Chrome N)

/-- Everything outside the script: the invocation, the environment, the file system
and how each engine answers a call. -/
structure World (N : Type) where
  /-- Content of `process.argv`: the runtime, the script, then the positional arguments. -/
  argv : List Str
  /-- Content of `process.env`. -/
  env : Str → Option Str
  /-- Content of the file system when the script starts. -/
  files : Files
  /-- The file a path names: the path resolved against the working directory, links
  followed. Two paths with one resolution name one file. -/
  resolve : Str → Str
  /-- Result of `launch(config)`: the handle it resolves to or the error it rejects with. -/
  launch : JSVal N → Except Err (Chrome N)
  /-- Result of `lighthouse(url, options)`. -/
  lighthouse : JSVal N → JSVal N → Except Err (JSVal N)
  /-- Failure of `fs.writeFileSync(path, text)` on the given file system, when it throws:
  the error and the file system the failed write leaves. -/
  writeFault : Files → Str → Str → Option (Err × Files)
  /-- Result of `chrome.kill()`. -/
  kill : Chrome N → Except Err Unit

/-- The file system after a write of `bytes` to `path` that succeeds: every path that
names the file `path` names now reads `bytes`, the other files are as they were. -/
def Files.write (files : Files) (resolve : Str → Str) (path : Str) (bytes : Bytes) : Files :=
  fun p => if resolve p = resolve path then some bytes else files p

/-- `fs.writeFileSync(path, data)` with the default encoding: the error thrown, if
any, and the file system afterwards. Data that is `undefined` is rejected before the
file is opened; a string is written as its UTF-8 bytes. -/
def writeFileSync (w : World N) (path : Str) (data : Option Str) : Option Err × Files :=
  match data with
  | none => (some ⟨"TypeError", "The \"data\" argument must be of type string"⟩, w.files)
  | some text =>
    match w.writeFault w.files path text with
    | some (e, files) => (some e, files)
    | none => (none, w.files.write w.resolve path (utf8Encode text))

/-- The run of the script: the calls in order, the file system at the end, and
whether the async function resolved or rejected (an unhandled rejection). -/
structure Run (N : Type) where
  trace : List (Event N)
  files : Files
  outcome : Except Err Unit

/-! ## The script -/

/-- Line 8, `const url = process.argv[2]`. -/
def url (w : World N) : JSVal N := ofOption w.argv[2]?

/-- Line 9, `const outputPath = process.argv[3] || 'report.json'`: the empty string is
falsy, as `undefined` is. -/
def outputPath (w : World N) : Str :=
  match w.argv[3]? with
  | some (c :: cs) => c :: cs
  | some [] => lit "report.json"
  | none => lit "report.json"

/-- Line 12, `const chromePath = process.env.CHROME_PATH || undefined`. -/
def chromePath (w : World N) : JSVal N :=
  match w.env (lit "CHROME_PATH") with
  | some (c :: cs) => .str (c :: cs)
  | some [] => .undefined
  | none => .undefined

/-- Lines 16-19, the argument of `launch`. -/
def launchConfig (w : World N) : JSVal N :=
  .obj [(lit "chromePath", chromePath w),
    (lit "chromeFlags", .arr [.str (lit "--headless"), .str (lit "--no-sandbox")])]

/-- Lines 22-27, `const options`. -/
def options (chrome : Chrome N) : JSVal N :=
  .obj [(lit "logLevel", .str (lit "info")),
    (lit "output", .str (lit "json")),
    (lit "onlyCategories", .arr [.str (lit "seo")]),
    (lit "port", chrome.port)]

/-- Lines 14-36, the async function and its call. -/
def main (ops : NumberOps N) (w : World N) : Run N :=
  let config := launchConfig w
  match w.launch config with
  | .error e => ⟨[.launch config], w.files, .error e⟩
  | .ok chrome =>
    let opts := options chrome
    match w.lighthouse (url w) opts with
    | .error e => ⟨[.launch config, .lighthouse (url w) opts], w.files, .error e⟩
    | .ok runnerResult =>
      match getProp runnerResult (lit "lhr") with
      | .error e => ⟨[.launch config, .lighthouse (url w) opts], w.files, .error e⟩
      | .ok reportJson =>
        let data := JSON.stringify ops reportJson 2
        match writeFileSync w (outputPath w) data with
        | (some e, files) =>
          ⟨[.launch config, .lighthouse (url w) opts, .writeFileSync (outputPath w) data],
            files, .error e⟩
        | (none, files) =>
          ⟨[.launch config, .lighthouse (url w) opts, .writeFileSync (outputPath w) data,
              .kill chrome],
            files, w.kill chrome⟩

/-! ## Observations on a trace -/

/-- The configurations `launch` was called with. -/
def launches : List (Event N) → List (JSVal N)
  | [] => []
  | .launch config :: t => config :: launches t
  | _ :: t => launches t

/-- The arguments `lighthouse` was called with. -/
def audits : List (Event N) → List (JSVal N × JSVal N)
  | [] => []
  | .lighthouse u o :: t => (u, o) :: audits t
  | _ :: t => audits t

/-- The path and data of each call of `fs.writeFileSync`. -/
def writes : List (Event N) → List (Str × Option Str)
  | [] => []
  | .writeFileSync path data :: t => (path, data) :: writes t
  | _ :: t => writes t

/-- The handles whose `kill` was called. -/
def kills : List (Event N) → List (Chrome N)
  | [] => []
  | .kill chrome :: t => chrome :: kills t
  | _ :: t => kills t

/-! ## A runtime with natural numbers in decimal, and concrete worlds -/

/-- Decimal digits of `n`, most significant first; `fuel` bounds their number. -/
def decimalDigits : Nat → Nat → Str
  | 0, _ => []
  | fuel + 1, n => if n < 10 then [48 + n] else decimalDigits fuel (n / 10) ++ [48 + n % 10]

/-- The number a string of decimal digits stands for. -/
def decimalValue (ds : Str) : Nat := ds.foldl (fun acc c => 10 * acc + (c - 48)) 0

/-- Numbers that are naturals, written in decimal; a token is a number when it is a
single digit or a string of digits that does not start with a zero. -/
def decimal : NumberOps Nat where
  isFinite := fun _ => true
  toString := fun n => decimalDigits (n + 1) n
  parse := fun tok =>
    match tok with
    | [] => none
    | [c] => if JSON.isDigit c then some (c - 48) else none
    | c :: d :: ds =>
      if 49 ≤ c && c ≤ 57 && (d :: ds).all JSON.isDigit then some (decimalValue (c :: d :: ds))
      else none

/-- A browser handle on port 9222. -/
def chrome0 : Chrome Nat := ⟨4242, .num 9222⟩

/-- A small report. -/
def report0 : JSVal Nat :=
  .obj [(lit "requestedUrl", .str (lit "https://example.com/")),
    (lit "categories", .obj [(lit "seo", .obj [(lit "score", .num 1), (lit "title", .str (lit "SEO"))])]),
    (lit "audits", .arr [.obj [(lit "id", .str (lit "document-title")), (lit "score", .null)],
      .obj [(lit "id", .str (lit "is-crawlable")), (lit "passed", .bool true)]]),
    (lit "runWarnings", .arr [])]

/-- Resolution of a relative path in a directory without links: leading `./` are
dropped. -/
def resolveCwd : Str → Str
  | 46 :: 47 :: rest => resolveCwd rest
  | path => path

/-- The invocation `node run_lighthouse.mjs https://example.com/` where every step succeeds. -/
def worldOk : World Nat where
  argv := [lit "node", lit "run_lighthouse.mjs", lit "https://example.com/"]
  env := fun _ => none
  files := fun _ => none
  resolve := resolveCwd
  launch := fun _ => .ok chrome0
  lighthouse := fun _ _ => .ok (.obj [(lit "lhr", report0)])
  writeFault := fun _ _ _ => none
  kill := fun _ => .ok ()

/-- The launcher rejects. -/
def worldLaunchFails : World Nat :=
  { worldOk with launch := fun _ => .error ⟨"Error", "No Chrome installations found."⟩ }

/-- The audit rejects. -/
def worldAuditFails : World Nat :=
  { worldOk with lighthouse := fun _ _ => .error ⟨"LighthouseError", "NO_FCP"⟩ }

/-- The write throws. -/
def worldWriteFails : World Nat :=
  { worldOk with writeFault := fun files _ _ => some (⟨"Error", "EACCES: permission denied"⟩, files) }

/-- A second positional argument, `out/seo.json`. -/
def worldExplicitPath : World Nat :=
  { worldOk with
    argv := [lit "node", lit "run_lighthouse.mjs", lit "https://example.com/", lit "out/seo.json"] }

/-- A second positional argument that is the empty string. -/
def worldEmptyPath : World Nat :=
  { worldOk with argv := [lit "node", lit "run_lighthouse.mjs", lit "https://example.com/", []] }

/-- CHROME_PATH is set to `/usr/bin/chromium`. -/
def worldChromePath : World Nat :=
  { worldOk with env := fun k => if k = lit "CHROME_PATH" then some (lit "/usr/bin/chromium") else none }

/-- CHROME_PATH is set to the empty string. -/
def worldEmptyChromePath : World Nat :=
  { worldOk with env := fun k => if k = lit "CHROME_PATH" then some [] else none }

/-! ## Theorems -/

/-! ### Strings -/

namespace JSON

theorem hexValue_hexDigit (d : Nat) (h : d < 16) : hexValue (hexDigit d) = some d := by
  interval_cases d <;> rfl

theorem unicodeEscape_value (c : Nat) (h : c < 65536) :
    4096 * (c / 4096 % 16) + 256 * (c / 256 % 16) + 16 * (c / 16 % 16) + c % 16 = c := by
  omega

theorem parseStringChars_quote (t : Str) : parseStringChars (34 :: t) = some ([], t) := by
  rw [parseStringChars.eq_def]; simp

theorem parseStringChars_literal (c : Nat) (t s r : Str) (h1 : c ≠ 34) (h2 : c ≠ 92)
    (h3 : ¬ c < 32) (ht : parseStringChars t = some (s, r)) :
    parseStringChars (c :: t) = some (c :: s, r) := by
  rw [parseStringChars.eq_def]; simp [h1, h2, h3, ht]

theorem parseStringChars_simple (e u : Nat) (t s r : Str) (h : simpleEscape e = some u)
    (ht : parseStringChars t = some (s, r)) :
    parseStringChars (92 :: e :: t) = some (u :: s, r) := by
  have he : e ≠ 117 := by
    intro he
    subst he
    simp [simpleEscape] at h
  rw [parseStringChars.eq_def]; simp [h, he, ht]

theorem parseStringChars_unicodeEscape (c : Nat) (h : c < 65536) (t s r : Str)
    (ht : parseStringChars t = some (s, r)) :
    parseStringChars (unicodeEscape c ++ t) = some (c :: s, r) := by
  rw [parseStringChars.eq_def]
  simp [unicodeEscape, hexValue_hexDigit _ (Nat.mod_lt _ (by decide : 16 > 0)),
    unicodeEscape_value c h, ht]

theorem surrogate_bounds (c : Nat) (h : isLeadingSurrogate c = true ∨ isTrailingSurrogate c = true) :
    c ≠ 34 ∧ c ≠ 92 ∧ ¬ c < 32 ∧ c < 65536 := by
  simp only [isLeadingSurrogate, isTrailingSurrogate, Bool.and_eq_true, decide_eq_true_eq] at h
  omega

theorem parseStringChars_quoteChars (s rest : Str) :
    parseStringChars (quoteChars s ++ 34 :: rest) = some (s, rest) := by
  induction s using quoteChars.induct with
  | case1 => rw [quoteChars.eq_def]; exact parseStringChars_quote rest
  | case2 r ih =>
    rw [quoteChars.eq_def]
    exact parseStringChars_simple 98 8 _ _ _ rfl ih
  | case3 r _ ih =>
    rw [quoteChars.eq_def]
    exact parseStringChars_simple 116 9 _ _ _ rfl ih
  | case4 r _ _ ih =>
    rw [quoteChars.eq_def]
    exact parseStringChars_simple 110 10 _ _ _ rfl ih
  | case5 r _ _ _ ih =>
    rw [quoteChars.eq_def]
    exact parseStringChars_simple 102 12 _ _ _ rfl ih
  | case6 r _ _ _ _ ih =>
    rw [quoteChars.eq_def]
    exact parseStringChars_simple 114 13 _ _ _ rfl ih
  | case7 r _ _ _ _ _ ih =>
    rw [quoteChars.eq_def]
    exact parseStringChars_simple 34 34 _ _ _ rfl ih
  | case8 r _ _ _ _ _ _ ih =>
    rw [quoteChars.eq_def]
    exact parseStringChars_simple 92 92 _ _ _ rfl ih
  | case9 c r h1 h2 h3 h4 h5 h6 h7 h8 ih =>
    rw [quoteChars.eq_def]
    simp only [h1, h2, h3, h4, h5, h6, h7, h8, ↓reduceIte, List.append_assoc]
    exact parseStringChars_unicodeEscape c (by omega) _ _ _ ih
  | case10 c h1 h2 h3 h4 h5 h6 h7 h8 hl d r ht ih =>
    rw [quoteChars.eq_def]
    simp only [h1, h2, h3, h4, h5, h6, h7, h8, hl, ht, ↓reduceIte, List.cons_append]
    have hc := surrogate_bounds c (Or.inl hl)
    have hd := surrogate_bounds d (Or.inr ht)
    exact parseStringChars_literal c _ _ _ hc.1 hc.2.1 hc.2.2.1
      (parseStringChars_literal d _ _ _ hd.1 hd.2.1 hd.2.2.1 ih)
  | case11 c h1 h2 h3 h4 h5 h6 h7 h8 hl d r ht ih =>
    rw [quoteChars.eq_def]
    simp only [h1, h2, h3, h4, h5, h6, h7, h8, hl, ht, ↓reduceIte, List.append_assoc]
    have hc := surrogate_bounds c (Or.inl hl)
    exact parseStringChars_unicodeEscape c hc.2.2.2 _ _ _ ih
  | case12 c h1 h2 h3 h4 h5 h6 h7 h8 hl =>
    rw [quoteChars.eq_def]
    simp only [h1, h2, h3, h4, h5, h6, h7, h8, hl, ↓reduceIte]
    have hc := surrogate_bounds c (Or.inl hl)
    exact parseStringChars_unicodeEscape c hc.2.2.2 _ _ _ (parseStringChars_quote rest)
  | case13 c r h1 h2 h3 h4 h5 h6 h7 h8 hl ht ih =>
    rw [quoteChars.eq_def]
    simp only [h1, h2, h3, h4, h5, h6, h7, h8, hl, ht, ↓reduceIte, List.append_assoc]
    have hc := surrogate_bounds c (Or.inr ht)
    exact parseStringChars_unicodeEscape c hc.2.2.2 _ _ _ ih
  | case14 c r h1 h2 h3 h4 h5 h6 h7 h8 hl ht ih =>
    rw [quoteChars.eq_def]
    simp only [h1, h2, h3, h4, h5, h6, h7, h8, hl, ht, ↓reduceIte, List.cons_append]
    exact parseStringChars_literal c _ _ _ h6 h7 h8 ih

/-! ### White space, literals and numbers -/

theorem skipWhitespace_append (ws t : Str) (h : ws.all isWhitespace = true) :
    skipWhitespace (ws ++ t) = skipWhitespace t := by
  induction ws with
  | nil => rfl
  | cons c ws ih =>
    simp only [List.all_cons, Bool.and_eq_true] at h
    simp [skipWhitespace, h.1, ih h.2]

theorem skipWhitespace_cons (c : Nat) (t : Str) (h : isWhitespace c = false) :
    skipWhitespace (c :: t) = c :: t := by
  simp [skipWhitespace, h]

theorem newline_spaces_whitespace (n : Nat) : (10 :: spaces n).all isWhitespace = true := by
  simp [spaces, isWhitespace]

theorem skipWhitespace_newline_spaces (n : Nat) (t : Str) :
    skipWhitespace (10 :: (spaces n ++ t)) = skipWhitespace t :=
  skipWhitespace_append (10 :: spaces n) t (newline_spaces_whitespace n)

theorem parseValue_skip (ops : NumberOps N) (fuel : Nat) (ws t : Str)
    (h : ws.all isWhitespace = true) :
    parseValue ops fuel (ws ++ t) = parseValue ops fuel t := by
  cases fuel with
  | zero => simp [parseValue]
  | succ f => simp only [parseValue, skipWhitespace_append ws t h]

theorem parseElements_skip (ops : NumberOps N) (fuel : Nat) (ws t : Str)
    (h : ws.all isWhitespace = true) :
    parseElements ops fuel (ws ++ t) = parseElements ops fuel t := by
  cases fuel with
  | zero => simp [parseElements]
  | succ f => simp only [parseElements, parseValue_skip ops f ws t h]

theorem parseMembers_skip (ops : NumberOps N) (fuel : Nat) (ws t : Str)
    (h : ws.all isWhitespace = true) :
    parseMembers ops fuel (ws ++ t) = parseMembers ops fuel t := by
  cases fuel with
  | zero => simp [parseMembers]
  | succ f => simp only [parseMembers, skipWhitespace_append ws t h]

theorem lit_null : lit "null" = [110, 117, 108, 108] := rfl

theorem lit_true : lit "true" = [116, 114, 117, 101] := rfl

theorem lit_false : lit "false" = [102, 97, 108, 115, 101] := rfl

theorem lit_ull : lit "ull" = [117, 108, 108] := rfl

theorem lit_rue : lit "rue" = [114, 117, 101] := rfl

theorem lit_alse : lit "alse" = [97, 108, 115, 101] := rfl

/-- A number token followed by something that is no number character is taken whole. -/
theorem takeWhile_token (tok rest : Str) (htok : tok.all isNumberChar = true)
    (hrest : ∀ c t, rest = c :: t → isNumberChar c = false) :
    (tok ++ rest).takeWhile isNumberChar = tok ∧ (tok ++ rest).dropWhile isNumberChar = rest := by
  induction tok with
  | nil =>
    cases rest with
    | nil => simp
    | cons c t => simp [List.takeWhile, List.dropWhile, hrest c t rfl]
  | cons c tok ih =>
    simp only [List.all_cons, Bool.and_eq_true] at htok
    simp [List.takeWhile, List.dropWhile, htok.1, ih htok.2]

theorem startsNumber_facts (c : Nat) (h : startsNumber c = true) :
    isWhitespace c = false ∧ isNumberChar c = true ∧ c ≠ 110 ∧ c ≠ 116 ∧ c ≠ 102 ∧ c ≠ 34 ∧
      c ≠ 91 ∧ c ≠ 123 ∧ c ≠ 93 ∧ c ≠ 125 := by
  simp only [startsNumber, isDigit, Bool.or_eq_true, Bool.and_eq_true, decide_eq_true_eq] at h
  simp only [isWhitespace, isNumberChar, isDigit, Bool.or_eq_true, Bool.and_eq_true,
    decide_eq_true_eq, Bool.or_eq_false_iff, decide_eq_false_iff_not]
  omega

theorem parseValue_null (ops : NumberOps N) (f : Nat) (rest : Str) :
    parseValue ops (f + 1) (lit "null" ++ rest) = some (.null, rest) := by
  simp [parseValue, lit_null, lit_ull, skipWhitespace, isWhitespace, stripWord]

theorem parseValue_true (ops : NumberOps N) (f : Nat) (rest : Str) :
    parseValue ops (f + 1) (lit "true" ++ rest) = some (.bool true, rest) := by
  simp [parseValue, lit_true, lit_rue, skipWhitespace, isWhitespace, stripWord]

theorem parseValue_false (ops : NumberOps N) (f : Nat) (rest : Str) :
    parseValue ops (f + 1) (lit "false" ++ rest) = some (.bool false, rest) := by
  simp [parseValue, lit_false, lit_alse, skipWhitespace, isWhitespace, stripWord]

theorem parseValue_string (ops : NumberOps N) (f : Nat) (s rest : Str) :
    parseValue ops (f + 1) (quoteJSONString s ++ rest) = some (.str s, rest) := by
  simp [parseValue, quoteJSONString, skipWhitespace, isWhitespace, parseStringChars_quoteChars]

theorem parseValue_number (ops : NumberOps N) (hops : Lawful ops) (f : Nat) (n : N) (rest : Str)
    (hn : ops.isFinite n = true) (hrest : ∀ c t, rest = c :: t → isNumberChar c = false) :
    parseValue ops (f + 1) (ops.toString n ++ rest) = some (.num n, rest) := by
  obtain ⟨c, cs, htext, hc, hcs⟩ := hops.token n hn
  have hfacts := startsNumber_facts c hc
  have htok : (c :: cs).all isNumberChar = true := by simp [hfacts.2.1, hcs]
  have htake := takeWhile_token (c :: cs) rest htok hrest
  have hround := hops.roundtrip n hn
  rw [htext] at hround
  rw [htext]
  simp only [List.cons_append] at htake ⊢
  simp only [parseValue, skipWhitespace_cons c _ hfacts.1]
  simp [hfacts, hc, htake.1, htake.2, hround]

/-! ### Arrays and objects -/

theorem joinWith_cons (sep p : Str) (ps : List Str) (h : ps ≠ []) :
    joinWith sep (p :: ps) = p ++ sep ++ joinWith sep ps := by
  cases ps with
  | nil => exact absurd rfl h
  | cons q qs => rfl

/-- The text of a JSON value starts with a character that is no white space and no
closing bracket. -/
theorem serialize_head (ops : NumberOps N) (hops : Lawful ops) (gap : Nat) (hgap : gap ≠ 0) (v : JSVal N) (indent : Nat)
    (hv : isJson ops v = true) :
    ∃ c t, serializeJSONProperty ops gap indent v = some (c :: t) ∧ isWhitespace c = false ∧
      c ≠ 93 ∧ c ≠ 125 := by
  cases v with
  | undefined => simp [isJson] at hv
  | null => exact ⟨110, [117, 108, 108], by simp [serializeJSONProperty, lit_null], by decide⟩
  | bool b =>
    cases b with
    | true => exact ⟨116, [114, 117, 101], by simp [serializeJSONProperty, lit_true], by decide⟩
    | false => exact ⟨102, [97, 108, 115, 101], by simp [serializeJSONProperty, lit_false], by decide⟩
  | num n =>
    simp only [isJson] at hv
    obtain ⟨c, cs, htext, hc, -⟩ := hops.token n hv
    have hfacts := startsNumber_facts c hc
    exact ⟨c, cs, by simp [serializeJSONProperty, hv, htext], hfacts.1, hfacts.2.2.2.2.2.2.2.2⟩
  | str s => exact ⟨34, quoteChars s ++ [34], by simp [serializeJSONProperty, quoteJSONString], by decide⟩
  | arr xs =>
    cases h : serializeElements ops gap (indent + gap) xs with
    | nil => exact ⟨91, [93], by simp [serializeJSONProperty, h, bracket], by decide⟩
    | cons p ps => exact ⟨91, _, by simp [serializeJSONProperty, h, bracket, hgap]; rfl, by decide⟩
  | obj ms =>
    cases h : serializeMembers ops gap (indent + gap) ms with
    | nil => exact ⟨123, [125], by simp [serializeJSONProperty, h, bracket], by decide⟩
    | cons p ps => exact ⟨123, _, by simp [serializeJSONProperty, h, bracket, hgap]; rfl, by decide⟩

theorem membersJson_keys (ops : NumberOps N) (ms : List (Str × JSVal N))
    (h : membersJson ops ms = true) : (ms.map Prod.fst).Nodup := by
  induction ms with
  | nil => simp
  | cons m ms ih =>
    obtain ⟨k, x⟩ := m
    simp only [membersJson, Bool.and_eq_true, Bool.not_eq_true', List.contains_eq_any_beq,
      List.any_eq_false] at h
    simp only [List.map_cons, List.nodup_cons]
    refine ⟨?_, ih h.2⟩
    intro hk
    have := h.1.2 k hk
    simp at this

theorem defineProperty_new (ms : List (Str × JSVal N)) (kv : Str × JSVal N)
    (h : kv.1 ∉ ms.map Prod.fst) : defineProperty ms kv = ms ++ [kv] := by
  induction ms with
  | nil => rfl
  | cons m ms ih =>
    simp only [List.map_cons, List.mem_cons, not_or] at h
    simp [defineProperty, Ne.symm h.1, ih h.2]

theorem foldl_defineProperty (ms acc : List (Str × JSVal N))
    (h : ((acc ++ ms).map Prod.fst).Nodup) : ms.foldl defineProperty acc = acc ++ ms := by
  induction ms generalizing acc with
  | nil => simp
  | cons m ms ih =>
    have hm : m.1 ∉ acc.map Prod.fst := by
      simp only [List.map_append, List.map_cons] at h
      have := (List.nodup_append.mp h).2.2
      intro hmem
      exact this hmem (List.mem_cons_self _ _)
    rw [List.foldl_cons, defineProperty_new acc m hm, ih]
    · simp
    · simpa using h

theorem bracket_cons (gap : Nat) (hgap : gap ≠ 0) (opener closer stepback : Nat) (p : Str)
    (ps : List Str) :
    bracket gap opener closer stepback (p :: ps) =
      [opener, 10] ++ spaces (stepback + gap)
        ++ joinWith ([44, 10] ++ spaces (stepback + gap)) (p :: ps)
        ++ [10] ++ spaces stepback ++ [closer] := by
  simp [bracket, hgap]

theorem serializeElements_cons_json (ops : NumberOps N) (gap indent : Nat) (x : JSVal N)
    (xs : List (JSVal N)) (text : Str) (h : serializeJSONProperty ops gap indent x = some text) :
    serializeElements ops gap indent (x :: xs) = text :: serializeElements ops gap indent xs := by
  simp [serializeElements, h]

theorem serializeMembers_cons_json (ops : NumberOps N) (gap : Nat) (hgap : gap ≠ 0) (indent : Nat) (k : Str) (x : JSVal N)
    (ms : List (Str × JSVal N)) (text : Str)
    (h : serializeJSONProperty ops gap indent x = some text) :
    serializeMembers ops gap indent ((k, x) :: ms) =
      (quoteJSONString k ++ [58, 32] ++ text) :: serializeMembers ops gap indent ms := by
  simp [serializeMembers, h, hgap]

mutual
theorem parseValue_serialize (ops : NumberOps N) (hops : Lawful ops) (gap : Nat) (hgap : gap ≠ 0) (v : JSVal N)
    (indent fuel : Nat) (rest : Str) (hv : isJson ops v = true) (hf : need v ≤ fuel)
    (hrest : ∀ c t, rest = c :: t → isNumberChar c = false) :
    ∃ text, serializeJSONProperty ops gap indent v = some text ∧
      parseValue ops fuel (text ++ rest) = some (v, rest) := by
  match v with
  | .undefined => simp [isJson] at hv
  | .null =>
    obtain ⟨f, rfl⟩ : ∃ f, fuel = f + 1 := ⟨fuel - 1, by simp only [need] at hf; omega⟩
    exact ⟨_, rfl, parseValue_null ops f rest⟩
  | .bool true =>
    obtain ⟨f, rfl⟩ : ∃ f, fuel = f + 1 := ⟨fuel - 1, by simp only [need] at hf; omega⟩
    exact ⟨_, rfl, parseValue_true ops f rest⟩
  | .bool false =>
    obtain ⟨f, rfl⟩ : ∃ f, fuel = f + 1 := ⟨fuel - 1, by simp only [need] at hf; omega⟩
    exact ⟨_, rfl, parseValue_false ops f rest⟩
  | .num n =>
    obtain ⟨f, rfl⟩ : ∃ f, fuel = f + 1 := ⟨fuel - 1, by simp only [need] at hf; omega⟩
    simp only [isJson] at hv
    refine ⟨ops.toString n, by simp [serializeJSONProperty, hv], ?_⟩
    exact parseValue_number ops hops f n rest hv hrest
  | .str s =>
    obtain ⟨f, rfl⟩ : ∃ f, fuel = f + 1 := ⟨fuel - 1, by simp only [need] at hf; omega⟩
    exact ⟨_, rfl, parseValue_string ops f s rest⟩
  | .arr xs =>
    obtain ⟨f, rfl⟩ : ∃ f, fuel = f + 1 := ⟨fuel - 1, by simp only [need] at hf; omega⟩
    simp only [isJson] at hv
    simp only [need] at hf
    refine ⟨_, rfl, ?_⟩
    match xs with
    | [] =>
      simp [serializeElements, bracket, parseValue, skipWhitespace, isWhitespace]
    | x :: xs =>
      have hx : isJson ops x = true := by
        simp only [allJson, Bool.and_eq_true] at hv
        exact hv.1
      obtain ⟨c, t, hct, hws, h93, -⟩ := serialize_head ops hops gap hgap x (indent + gap) hx
      have hparts := serializeElements_cons_json ops gap (indent + gap) x xs (c :: t) hct
      have hrec := parseElements_serialize ops hops gap hgap (x :: xs) (indent + gap) indent f rest hv
        (by simp) (by omega)
      rw [hparts] at hrec ⊢
      have hjoin : ∃ u, joinWith ([44, 10] ++ spaces (indent + gap))
          ((c :: t) :: serializeElements ops gap (indent + gap) xs) = c :: u := by
        cases serializeElements ops gap (indent + gap) xs with
        | nil => exact ⟨t, rfl⟩
        | cons q qs => exact ⟨_, rfl⟩
      obtain ⟨u, hu⟩ := hjoin
      rw [hu] at hrec
      rw [bracket_cons gap hgap, hu]
      simp only [List.cons_append, List.nil_append, List.append_assoc, parseValue]
      rw [skipWhitespace_cons 91 _ (by decide)]
      simp only [show (91 : Nat) ≠ 110 by decide, show (91 : Nat) ≠ 116 by decide,
        show (91 : Nat) ≠ 102 by decide, show (91 : Nat) ≠ 34 by decide, ↓reduceIte]
      rw [skipWhitespace_newline_spaces, skipWhitespace_cons c _ hws]
      simp only [h93, ↓reduceIte]
      simp only [List.cons_append] at hrec
      rw [hrec]
  | .obj ms =>
    obtain ⟨f, rfl⟩ : ∃ f, fuel = f + 1 := ⟨fuel - 1, by simp only [need] at hf; omega⟩
    simp only [isJson] at hv
    simp only [need] at hf
    refine ⟨_, rfl, ?_⟩
    match ms with
    | [] =>
      simp [serializeMembers, bracket, parseValue, skipWhitespace, isWhitespace]
    | (k, x) :: ms =>
      have hx : isJson ops x = true := by
        simp only [membersJson, Bool.and_eq_true] at hv
        exact hv.1.1
      obtain ⟨c, t, hct, -, -, -⟩ := serialize_head ops hops gap hgap x (indent + gap) hx
      have hparts := serializeMembers_cons_json ops gap hgap (indent + gap) k x ms (c :: t) hct
      have hrec := parseMembers_serialize ops hops gap hgap ((k, x) :: ms) (indent + gap) indent f rest hv
        (by simp) (by omega)
      rw [hparts] at hrec ⊢
      have hjoin : ∃ u, joinWith ([44, 10] ++ spaces (indent + gap))
          ((quoteJSONString k ++ [58, 32] ++ (c :: t)) :: serializeMembers ops gap (indent + gap) ms)
            = 34 :: u := by
        cases serializeMembers ops gap (indent + gap) ms with
        | nil => exact ⟨_, rfl⟩
        | cons q qs => exact ⟨_, rfl⟩
      obtain ⟨u, hu⟩ := hjoin
      rw [hu] at hrec
      rw [bracket_cons gap hgap, hu]
      simp only [List.cons_append, List.nil_append, List.append_assoc, parseValue]
      rw [skipWhitespace_cons 123 _ (by decide)]
      simp only [show (123 : Nat) ≠ 110 by decide, show (123 : Nat) ≠ 116 by decide,
        show (123 : Nat) ≠ 102 by decide, show (123 : Nat) ≠ 34 by decide,
        show (123 : Nat) ≠ 91 by decide, ↓reduceIte]
      rw [skipWhitespace_newline_spaces, skipWhitespace_cons 34 _ (by decide)]
      simp only [show (34 : Nat) ≠ 125 by decide, ↓reduceIte]
      simp only [List.cons_append] at hrec
      rw [hrec]
      have hkeys := membersJson_keys ops ((k, x) :: ms) hv
      simp only [foldl_defineProperty ((k, x) :: ms) [] (by simpa using hkeys), List.nil_append]
theorem parseElements_serialize (ops : NumberOps N) (hops : Lawful ops) (gap : Nat) (hgap : gap ≠ 0) (xs : List (JSVal N))
    (indent stepback fuel : Nat) (rest : Str) (hv : allJson ops xs = true) (hne : xs ≠ [])
    (hf : needElements xs ≤ fuel) :
    parseElements ops fuel
        (joinWith ([44, 10] ++ spaces indent) (serializeElements ops gap indent xs)
          ++ (10 :: (spaces stepback ++ 93 :: rest))) = some (xs, rest) := by
  match xs with
  | [] => exact absurd rfl hne
  | x :: xs =>
    simp only [allJson, Bool.and_eq_true] at hv
    simp only [needElements] at hf
    obtain ⟨f, rfl⟩ : ∃ f, fuel = f + 1 := ⟨fuel - 1, by omega⟩
    match xs with
    | [] =>
      obtain ⟨text, htext, hparse⟩ := parseValue_serialize ops hops gap hgap x indent f
        (10 :: (spaces stepback ++ 93 :: rest)) hv.1 (by omega)
        (fun c t h => by cases h; decide)
      rw [serializeElements_cons_json ops gap indent x [] text htext]
      simp only [serializeElements, joinWith, parseElements, hparse]
      rw [skipWhitespace_newline_spaces, skipWhitespace_cons 93 _ (by decide)]
      simp
    | y :: ys =>
      obtain ⟨text, htext, hparse⟩ := parseValue_serialize ops hops gap hgap x indent f
        (44 :: 10 :: (spaces indent ++ (joinWith ([44, 10] ++ spaces indent)
          (serializeElements ops gap indent (y :: ys)) ++ (10 :: (spaces stepback ++ 93 :: rest)))))
        hv.1 (by omega) (fun c t h => by cases h; decide)
      have hrec := parseElements_serialize ops hops gap hgap (y :: ys) indent stepback f rest hv.2
        (by simp) (by omega)
      rw [serializeElements_cons_json ops gap indent x (y :: ys) text htext]
      rw [joinWith_cons _ _ _ (by simp [serializeElements])]
      simp only [List.append_assoc, List.cons_append, List.nil_append] at hparse ⊢
      simp only [parseElements, hparse]
      rw [skipWhitespace_cons 44 _ (by decide)]
      simp only [↓reduceIte]
      have hskip := parseElements_skip ops f (10 :: spaces indent)
        (joinWith (44 :: 10 :: spaces indent) (serializeElements ops gap indent (y :: ys)) ++
          (10 :: (spaces stepback ++ 93 :: rest))) (newline_spaces_whitespace indent)
      simp only [List.append_assoc, List.cons_append, List.nil_append] at hskip hrec
      rw [hskip, hrec]
theorem parseMembers_serialize (ops : NumberOps N) (hops : Lawful ops) (gap : Nat) (hgap : gap ≠ 0)
    (ms : List (Str × JSVal N))
    (indent stepback fuel : Nat) (rest : Str) (hv : membersJson ops ms = true) (hne : ms ≠ [])
    (hf : needMembers ms ≤ fuel) :
    parseMembers ops fuel
        (joinWith ([44, 10] ++ spaces indent) (serializeMembers ops gap indent ms)
          ++ (10 :: (spaces stepback ++ 125 :: rest))) = some (ms, rest) := by
  match ms with
  | [] => exact absurd rfl hne
  | (k, x) :: ms =>
    simp only [membersJson, Bool.and_eq_true] at hv
    simp only [needMembers] at hf
    obtain ⟨f, rfl⟩ : ∃ f, fuel = f + 1 := ⟨fuel - 1, by omega⟩
    match ms with
    | [] =>
      obtain ⟨text, htext, hparse⟩ := parseValue_serialize ops hops gap hgap x indent f
        (10 :: (spaces stepback ++ 125 :: rest)) hv.1.1 (by omega)
        (fun c t h => by cases h; decide)
      rw [serializeMembers_cons_json ops gap hgap indent k x [] text htext]
      have hskip := parseValue_skip ops f [32] (text ++ 10 :: (spaces stepback ++ 125 :: rest))
        (by decide)
      simp only [serializeMembers, joinWith, parseMembers, quoteJSONString, List.append_assoc,
        List.cons_append, List.nil_append] at hskip ⊢
      rw [skipWhitespace_cons 34 _ (by decide)]
      simp only [↓reduceIte, parseStringChars_quoteChars]
      rw [skipWhitespace_cons 58 _ (by decide)]
      simp only [↓reduceIte, hskip, hparse]
      rw [skipWhitespace_newline_spaces, skipWhitespace_cons 125 _ (by decide)]
      simp
    | m :: ms =>
      obtain ⟨text, htext, hparse⟩ := parseValue_serialize ops hops gap hgap x indent f
        (44 :: 10 :: (spaces indent ++ (joinWith ([44, 10] ++ spaces indent)
          (serializeMembers ops gap indent (m :: ms)) ++ (10 :: (spaces stepback ++ 125 :: rest)))))
        hv.1.1 (by omega) (fun c t h => by cases h; decide)
      have hrec := parseMembers_serialize ops hops gap hgap (m :: ms) indent stepback f rest hv.2
        (by simp) (by omega)
      rw [serializeMembers_cons_json ops gap hgap indent k x (m :: ms) text htext]
      rw [joinWith_cons _ _ _ (by
        obtain ⟨k2, x2⟩ := m
        have hx2 : isJson ops x2 = true := by
          have := hv.2
          simp only [membersJson, Bool.and_eq_true] at this
          exact this.1.1
        obtain ⟨c2, t2, hct2, -⟩ := serialize_head ops hops gap hgap x2 indent hx2
        simp [serializeMembers, hct2])]
      have hskip := parseValue_skip ops f [32] (text ++ 44 :: 10 :: (spaces indent ++
        (joinWith ([44, 10] ++ spaces indent) (serializeMembers ops gap indent (m :: ms)) ++
          (10 :: (spaces stepback ++ 125 :: rest))))) (by decide)
      simp only [parseMembers, quoteJSONString, List.append_assoc,
        List.cons_append, List.nil_append] at hskip hparse ⊢
      rw [skipWhitespace_cons 34 _ (by decide)]
      simp only [↓reduceIte, parseStringChars_quoteChars]
      rw [skipWhitespace_cons 58 _ (by decide)]
      simp only [↓reduceIte, hskip, hparse]
      rw [skipWhitespace_cons 44 _ (by decide)]
      simp only [↓reduceIte]
      have hskip2 := parseMembers_skip ops f (10 :: spaces indent)
        (joinWith (44 :: 10 :: spaces indent) (serializeMembers ops gap indent (m :: ms)) ++
          (10 :: (spaces stepback ++ 125 :: rest))) (newline_spaces_whitespace indent)
      simp only [List.append_assoc, List.cons_append, List.nil_append] at hskip2 hrec
      rw [hskip2, hrec]
end

/-! ### Fuel -/

theorem bracket_length (gap : Nat) (hgap : gap ≠ 0) (opener closer stepback : Nat) (parts : List Str) :
    (joinWith ([44, 10] ++ spaces (stepback + gap)) parts).length + 2 ≤
      (bracket gap opener closer stepback parts).length := by
  cases parts with
  | nil => simp [bracket, joinWith]
  | cons p ps =>
    simp only [bracket_cons gap hgap, List.length_append, List.length_cons, List.length_nil]
    omega

mutual
theorem need_le_length (ops : NumberOps N) (hops : Lawful ops) (gap : Nat) (hgap : gap ≠ 0) (v : JSVal N) (indent : Nat)
    (text : Str) (hv : isJson ops v = true)
    (htext : serializeJSONProperty ops gap indent v = some text) : need v ≤ text.length := by
  match v with
  | .undefined => simp [isJson] at hv
  | .null =>
    simp only [serializeJSONProperty, Option.some.injEq] at htext
    subst htext
    simp [need, lit_null, lit_true, lit_false]
  | .bool true =>
    simp only [serializeJSONProperty, Option.some.injEq] at htext
    subst htext
    simp [need, lit_null, lit_true, lit_false]
  | .bool false =>
    simp only [serializeJSONProperty, Option.some.injEq] at htext
    subst htext
    simp [need, lit_null, lit_true, lit_false]
  | .num n =>
    simp only [isJson] at hv
    obtain ⟨c, cs, hc, -⟩ := hops.token n hv
    simp only [serializeJSONProperty, hv, ↓reduceIte, Option.some.injEq] at htext
    subst htext
    simp [need, hc]
  | .str s =>
    simp only [serializeJSONProperty, Option.some.injEq] at htext
    subst htext
    simp [need, quoteJSONString]
  | .arr xs =>
    simp only [isJson] at hv
    simp only [serializeJSONProperty, Option.some.injEq] at htext
    subst htext
    have h1 := needElements_le_length ops hops gap hgap xs (indent + gap) hv
    have h2 := bracket_length gap hgap 91 93 indent (serializeElements ops gap (indent + gap) xs)
    simp only [need]
    omega
  | .obj ms =>
    simp only [isJson] at hv
    simp only [serializeJSONProperty, Option.some.injEq] at htext
    subst htext
    have h1 := needMembers_le_length ops hops gap hgap ms (indent + gap) hv
    have h2 := bracket_length gap hgap 123 125 indent (serializeMembers ops gap (indent + gap) ms)
    simp only [need]
    omega
theorem needElements_le_length (ops : NumberOps N) (hops : Lawful ops) (gap : Nat) (hgap : gap ≠ 0) (xs : List (JSVal N))
    (indent : Nat) (hv : allJson ops xs = true) :
    needElements xs ≤
      (joinWith ([44, 10] ++ spaces indent) (serializeElements ops gap indent xs)).length + 1 := by
  match xs with
  | [] => simp [needElements]
  | x :: xs =>
    simp only [allJson, Bool.and_eq_true] at hv
    obtain ⟨c, t, hct, -⟩ := serialize_head ops hops gap hgap x indent hv.1
    have hx := need_le_length ops hops gap hgap x indent (c :: t) hv.1 hct
    have hrec := needElements_le_length ops hops gap hgap xs indent hv.2
    rw [serializeElements_cons_json ops gap indent x xs (c :: t) hct]
    simp only [needElements]
    match xs with
    | [] =>
      simp only [serializeElements, joinWith, needElements]
      omega
    | y :: ys =>
      rw [joinWith_cons _ _ _ (by simp [serializeElements])]
      simp only [List.length_append, List.length_cons, List.length_nil] at hx hrec ⊢
      omega
theorem needMembers_le_length (ops : NumberOps N) (hops : Lawful ops) (gap : Nat) (hgap : gap ≠ 0)
    (ms : List (Str × JSVal N)) (indent : Nat) (hv : membersJson ops ms = true) :
    needMembers ms ≤
      (joinWith ([44, 10] ++ spaces indent) (serializeMembers ops gap indent ms)).length + 1 := by
  match ms with
  | [] => simp [needMembers]
  | (k, x) :: ms =>
    simp only [membersJson, Bool.and_eq_true] at hv
    obtain ⟨c, t, hct, -⟩ := serialize_head ops hops gap hgap x indent hv.1.1
    have hx := need_le_length ops hops gap hgap x indent (c :: t) hv.1.1 hct
    have hrec := needMembers_le_length ops hops gap hgap ms indent hv.2
    rw [serializeMembers_cons_json ops gap hgap indent k x ms (c :: t) hct]
    simp only [needMembers]
    match ms with
    | [] =>
      simp only [serializeMembers, joinWith, needMembers, List.length_append, List.length_cons,
        List.length_nil] at hx ⊢
      omega
    | (k2, x2) :: ms2 =>
      have hx2 : isJson ops x2 = true := by
        have := hv.2
        simp only [membersJson, Bool.and_eq_true] at this
        exact this.1.1
      obtain ⟨c2, t2, hct2, -⟩ := serialize_head ops hops gap hgap x2 indent hx2
      rw [joinWith_cons _ _ _ (by simp [serializeMembers, hct2])]
      simp only [List.length_append, List.length_cons, List.length_nil] at hx hrec ⊢
      omega
end

/-- The round trip: the text `JSON.stringify(v, null, space)` of a JSON document, for
a number `space` that is positive, parses back to the document. -/
theorem parse_stringify (ops : NumberOps N) (hops : Lawful ops) (space : Nat)
    (hspace : space ≠ 0) (v : JSVal N) (hv : isJson ops v = true) :
    ∃ text, stringify ops v space = some text ∧ parse ops text = some v := by
  have hgap : min space 10 ≠ 0 := by omega
  unfold stringify
  generalize min space 10 = gap at hgap
  obtain ⟨text, htext, -⟩ := parseValue_serialize ops hops gap hgap v 0 (need v) [] hv (Nat.le_refl _)
    (fun c t h => by cases h)
  have hlen := need_le_length ops hops gap hgap v 0 text hv htext
  obtain ⟨text2, htext2, hparse⟩ := parseValue_serialize ops hops gap hgap v 0 (text.length + 1) [] hv
    (by omega) (fun c t h => by cases h)
  rw [htext] at htext2
  cases htext2
  refine ⟨text, htext, ?_⟩
  simp only [List.append_nil] at hparse
  simp [parse, hparse, skipWhitespace]


end JSON

/-! ### The serializer and the parser on concrete values -/

/-- An element that is `undefined` is written `null`, a property that is `undefined`
is left out, and nested values are indented by two more spaces. -/
theorem stringify_example :
    JSON.stringify decimal
        (.obj [(lit "a", .arr [.num 10, .undefined]), (lit "b", .undefined),
          (lit "c", .str [34, 10, 233]), (lit "d", .obj [])]) 2 =
      some (lit "\x7b\n  \"a\": [\n    10,\n    null\n  ],\n  \"c\": \"\\\"\\né\",\n  \"d\": \x7b\x7d\n\x7d") := by
  decide

/-- A lone surrogate is escaped, a surrogate pair is not. -/
theorem quoteJSONString_example :
    JSON.quoteJSONString [0xD83D, 0xDE00, 0xDE00, 31] =
      [34, 0xD83D, 0xDE00] ++ lit "\\ude00\\u001f\"" := by
  decide

set_option maxRecDepth 4096 in
/-- White space is skipped, escapes are decoded, and of two properties with one key
the second value stays, at the place of the first. -/
theorem parse_example :
    JSON.parse decimal (lit " [1, \"\\u00E9\\/\", \x7b\"a\":1, \"b\":[], \"a\":\x7b\x7d\x7d ]\n") =
      some (.arr [.num 1, .str [233, 47], .obj [(lit "a", .obj []), (lit "b", .arr [])]]) := by
  rfl

/-- A trailing comma, a leading zero and text after the value are syntax errors. -/
theorem parse_error_example :
    JSON.parse decimal (lit "[1,]") = none ∧ JSON.parse decimal (lit "01") = none ∧
      JSON.parse decimal (lit "[] x") = none := by
  refine ⟨?_, ?_, ?_⟩ <;> rfl

/-! ### The script -/

/-- The shape of a run that resolves: every step succeeded, and the trace is the four
calls in order. -/
theorem main_ok (ops : NumberOps N) (w : World N) (hok : (main ops w).outcome = .ok ()) :
    ∃ chrome runnerResult reportJson text,
      w.launch (launchConfig w) = .ok chrome ∧
      w.lighthouse (url w) (options chrome) = .ok runnerResult ∧
      getProp runnerResult (lit "lhr") = .ok reportJson ∧
      JSON.stringify ops reportJson 2 = some text ∧
      w.writeFault w.files (outputPath w) text = none ∧
      main ops w = ⟨[.launch (launchConfig w), .lighthouse (url w) (options chrome),
          .writeFileSync (outputPath w) (some text), .kill chrome],
        w.files.write w.resolve (outputPath w) (utf8Encode text), .ok ()⟩ := by
  unfold main at hok ⊢
  cases hl : w.launch (launchConfig w) with
  | error e => simp [hl] at hok
  | ok chrome =>
    cases ha : w.lighthouse (url w) (options chrome) with
    | error e => simp [hl, ha] at hok
    | ok runnerResult =>
      cases hr : getProp runnerResult (lit "lhr") with
      | error e => simp [hl, ha, hr] at hok
      | ok reportJson =>
        cases hs : JSON.stringify ops reportJson 2 with
        | none => simp [hl, ha, hr, hs, writeFileSync] at hok
        | some text =>
          cases hf : w.writeFault w.files (outputPath w) text with
          | some ef => simp [hl, ha, hr, hs, writeFileSync, hf] at hok
          | none =>
            simp only [hl, ha, hr, hs, writeFileSync, hf] at hok ⊢
            exact ⟨chrome, runnerResult, reportJson, text, rfl, ha, hr, hs, hf, by rw [hok]⟩

/-- The run when the launcher rejects. -/
theorem main_launch_error (ops : NumberOps N) (w : World N) (e : Err)
    (hlaunch : w.launch (launchConfig w) = .error e) :
    main ops w = ⟨[.launch (launchConfig w)], w.files, .error e⟩ := by
  simp [main, hlaunch]

/-- The run when the audit rejects. -/
theorem main_audit_error (ops : NumberOps N) (w : World N) (chrome : Chrome N) (e : Err)
    (hlaunch : w.launch (launchConfig w) = .ok chrome)
    (haudit : w.lighthouse (url w) (options chrome) = .error e) :
    main ops w =
      ⟨[.launch (launchConfig w), .lighthouse (url w) (options chrome)], w.files, .error e⟩ := by
  simp [main, hlaunch, haudit]

/-- The run when reading `runnerResult.lhr` throws. -/
theorem main_lhr_error (ops : NumberOps N) (w : World N) (chrome : Chrome N)
    (runnerResult : JSVal N) (e : Err)
    (hlaunch : w.launch (launchConfig w) = .ok chrome)
    (haudit : w.lighthouse (url w) (options chrome) = .ok runnerResult)
    (hlhr : getProp runnerResult (lit "lhr") = .error e) :
    main ops w =
      ⟨[.launch (launchConfig w), .lighthouse (url w) (options chrome)], w.files, .error e⟩ := by
  simp [main, hlaunch, haudit, hlhr]

/-- The run when the write throws. -/
theorem main_write_error (ops : NumberOps N) (w : World N) (chrome : Chrome N)
    (runnerResult reportJson : JSVal N) (e : Err) (files : Files)
    (hlaunch : w.launch (launchConfig w) = .ok chrome)
    (haudit : w.lighthouse (url w) (options chrome) = .ok runnerResult)
    (hlhr : getProp runnerResult (lit "lhr") = .ok reportJson)
    (hwrite : writeFileSync w (outputPath w) (JSON.stringify ops reportJson 2) = (some e, files)) :
    main ops w =
      ⟨[.launch (launchConfig w), .lighthouse (url w) (options chrome),
          .writeFileSync (outputPath w) (JSON.stringify ops reportJson 2)], files, .error e⟩ := by
  simp [main, hlaunch, haudit, hlhr, hwrite]

/-- The run when the write succeeds. -/
theorem main_write_ok (ops : NumberOps N) (w : World N) (chrome : Chrome N)
    (runnerResult reportJson : JSVal N) (files : Files)
    (hlaunch : w.launch (launchConfig w) = .ok chrome)
    (haudit : w.lighthouse (url w) (options chrome) = .ok runnerResult)
    (hlhr : getProp runnerResult (lit "lhr") = .ok reportJson)
    (hwrite : writeFileSync w (outputPath w) (JSON.stringify ops reportJson 2) = (none, files)) :
    main ops w =
      ⟨[.launch (launchConfig w), .lighthouse (url w) (options chrome),
          .writeFileSync (outputPath w) (JSON.stringify ops reportJson 2), .kill chrome],
        files, w.kill chrome⟩ := by
  simp [main, hlaunch, haudit, hlhr, hwrite]

/-- The launcher is called once in every run, with the configuration of lines 16-19,
and its call is the first one. -/
theorem main_launch (ops : NumberOps N) (w : World N) :
    (∃ rest, (main ops w).trace = .launch (launchConfig w) :: rest) ∧
      launches (main ops w).trace = [launchConfig w] := by
  cases hl : w.launch (launchConfig w) with
  | error e => rw [main_launch_error ops w e hl]; exact ⟨⟨_, rfl⟩, rfl⟩
  | ok chrome =>
    cases ha : w.lighthouse (url w) (options chrome) with
    | error e => rw [main_audit_error ops w chrome e hl ha]; exact ⟨⟨_, rfl⟩, rfl⟩
    | ok runnerResult =>
      cases hr : getProp runnerResult (lit "lhr") with
      | error e => rw [main_lhr_error ops w chrome runnerResult e hl ha hr]; exact ⟨⟨_, rfl⟩, rfl⟩
      | ok reportJson =>
        cases hw : writeFileSync w (outputPath w) (JSON.stringify ops reportJson 2) with
        | mk err files =>
          cases err with
          | none =>
            rw [main_write_ok ops w chrome runnerResult reportJson files hl ha hr hw]
            exact ⟨⟨_, rfl⟩, rfl⟩
          | some e =>
            rw [main_write_error ops w chrome runnerResult reportJson e files hl ha hr hw]
            exact ⟨⟨_, rfl⟩, rfl⟩

/-- C2. Whatever the arguments, the environment and the files: when the browser launches
and the audit rejects with `e`, the run rejects with that same `e`, the file system is
the one the run started with, and `fs.writeFileSync` was never called. -/
theorem audit_failure_is_fatal (ops : NumberOps N) (w : World N) (chrome : Chrome N) (e : Err)
    (hlaunch : w.launch (launchConfig w) = .ok chrome)
    (haudit : w.lighthouse (url w) (options chrome) = .error e) :
    (main ops w).outcome = .error e ∧ (main ops w).files = w.files ∧
      writes (main ops w).trace = [] := by
  simp [main, hlaunch, haudit, writes]

theorem audit_failure_is_fatal_witness :
    ((main decimal worldAuditFails).outcome = .error ⟨"LighthouseError", "NO_FCP"⟩ ∧
      (main decimal worldAuditFails).files = worldAuditFails.files ∧
      writes (main decimal worldAuditFails).trace = []) :=
  audit_failure_is_fatal decimal worldAuditFails chrome0 ⟨"LighthouseError", "NO_FCP"⟩ rfl rfl

/-- C3. When the launch, the audit and the write succeed, `kill` is called exactly once,
on the handle the launcher resolved to, and the launcher was called exactly once. -/
theorem teardown_on_success (ops : NumberOps N) (w : World N) (chrome : Chrome N)
    (runnerResult reportJson : JSVal N)
    (hlaunch : w.launch (launchConfig w) = .ok chrome)
    (haudit : w.lighthouse (url w) (options chrome) = .ok runnerResult)
    (hlhr : getProp runnerResult (lit "lhr") = .ok reportJson)
    (hwrite : (writeFileSync w (outputPath w) (JSON.stringify ops reportJson 2)).1 = none) :
    kills (main ops w).trace = [chrome] ∧ launches (main ops w).trace = [launchConfig w] := by
  refine ⟨?_, (main_launch ops w).2⟩
  cases hw : writeFileSync w (outputPath w) (JSON.stringify ops reportJson 2) with
  | mk err files =>
    rw [hw] at hwrite
    simp only at hwrite
    subst hwrite
    rw [main_write_ok ops w chrome runnerResult reportJson files hlaunch haudit hlhr hw]
    rfl

theorem teardown_on_success_witness :
    kills (main decimal worldOk).trace = [chrome0] ∧
      launches (main decimal worldOk).trace = [launchConfig worldOk] :=
  teardown_on_success decimal worldOk chrome0 (.obj [(lit "lhr", report0)]) report0 rfl rfl rfl rfl

/-- C4. With no second positional argument, a run that resolves has called
`fs.writeFileSync` exactly once, with the path `report.json`, and the file at that path
holds the text that was written. -/
theorem default_output_path (ops : NumberOps N) (w : World N)
    (hargs : w.argv[3]? = none) (hok : (main ops w).outcome = .ok ()) :
    ∃ text, writes (main ops w).trace = [(lit "report.json", some text)] ∧
      (main ops w).files (lit "report.json") = some (utf8Encode text) := by
  obtain ⟨chrome, runnerResult, reportJson, text, -, -, -, -, -, hrun⟩ := main_ok ops w hok
  have hp : outputPath w = lit "report.json" := by simp [outputPath, hargs]
  refine ⟨text, ?_, ?_⟩
  · rw [hrun, hp]; rfl
  · rw [hrun, hp]; simp [Files.write]

theorem default_output_path_witness :
    ∃ text, writes (main decimal worldOk).trace = [(lit "report.json", some text)] ∧
      (main decimal worldOk).files (lit "report.json") = some (utf8Encode text) :=
  default_output_path decimal worldOk rfl rfl

/-- C5, as stated, fails when the second argument is the empty string: the run
resolves, the one write goes to `report.json`, and no file exists at the empty path. -/
theorem explicit_output_path_counterexample :
    worldEmptyPath.argv[3]? = some [] ∧
      (main decimal worldEmptyPath).outcome = .ok () ∧
      (writes (main decimal worldEmptyPath).trace).map Prod.fst = [lit "report.json"] ∧
      (writes (main decimal worldEmptyPath).trace).map Prod.fst ≠ [[]] ∧
      (main decimal worldEmptyPath).files [] = none ∧
      (main decimal worldEmptyPath).files (lit "report.json") ≠ none := by
  refine ⟨rfl, rfl, rfl, ?_, rfl, ?_⟩ <;> decide

/-- C5, amended. With a second positional argument `p` that is not the empty string, a
run that resolves has called `fs.writeFileSync` exactly once, with the path `p`; the
file at `p` holds the bytes of the text written, whatever was there before, and every
path that names another file than `p` does reads as it did. -/
theorem explicit_output_path (ops : NumberOps N) (w : World N) (p : Str)
    (hargs : w.argv[3]? = some p) (hp : p ≠ []) (hok : (main ops w).outcome = .ok ()) :
    ∃ text, writes (main ops w).trace = [(p, some text)] ∧
      (main ops w).files p = some (utf8Encode text) ∧
      ∀ q, w.resolve q ≠ w.resolve p → (main ops w).files q = w.files q := by
  obtain ⟨chrome, runnerResult, reportJson, text, -, -, -, -, -, hrun⟩ := main_ok ops w hok
  have hpath : outputPath w = p := by
    cases p with
    | nil => exact absurd rfl hp
    | cons c cs => simp [outputPath, hargs]
  refine ⟨text, ?_, ?_, ?_⟩
  · rw [hrun, hpath]; rfl
  · rw [hrun, hpath]; simp [Files.write]
  · intro q hq
    rw [hrun, hpath]
    simp [Files.write, hq]

theorem explicit_output_path_witness :
    ∃ text, writes (main decimal worldExplicitPath).trace = [(lit "out/seo.json", some text)] ∧
      (main decimal worldExplicitPath).files (lit "out/seo.json") = some (utf8Encode text) ∧
      ∀ q, resolveCwd q ≠ resolveCwd (lit "out/seo.json") →
        (main decimal worldExplicitPath).files q = worldExplicitPath.files q :=
  explicit_output_path decimal worldExplicitPath (lit "out/seo.json") rfl (by decide) rfl

/-- The audit is called once in every run where the browser launches, with the first
positional argument and the options of lines 22-27. -/
theorem main_audit (ops : NumberOps N) (w : World N) (chrome : Chrome N)
    (hl : w.launch (launchConfig w) = .ok chrome) :
    audits (main ops w).trace = [(url w, options chrome)] := by
  cases ha : w.lighthouse (url w) (options chrome) with
  | error e => rw [main_audit_error ops w chrome e hl ha]; rfl
  | ok runnerResult =>
    cases hr : getProp runnerResult (lit "lhr") with
    | error e => rw [main_lhr_error ops w chrome runnerResult e hl ha hr]; rfl
    | ok reportJson =>
      cases hw : writeFileSync w (outputPath w) (JSON.stringify ops reportJson 2) with
      | mk err files =>
        cases err with
        | none => rw [main_write_ok ops w chrome runnerResult reportJson files hl ha hr hw]; rfl
        | some e => rw [main_write_error ops w chrome runnerResult reportJson e files hl ha hr hw]; rfl

/-- C6. In every run where the browser launches, `lighthouse` is called exactly once; its
first argument is `process.argv[2]` as it is (`undefined` when absent), and its options
have `onlyCategories` equal to `['seo']`, `output` equal to `'json'`, `logLevel` equal to
`'info'` and `port` equal to the port of the handle the launcher resolved to. -/
theorem audit_configuration (ops : NumberOps N) (w : World N) (chrome : Chrome N)
    (hlaunch : w.launch (launchConfig w) = .ok chrome) :
    ∃ opts, audits (main ops w).trace = [(ofOption w.argv[2]?, opts)] ∧
      getProp opts (lit "onlyCategories") = .ok (.arr [.str (lit "seo")]) ∧
      getProp opts (lit "output") = .ok (.str (lit "json")) ∧
      getProp opts (lit "logLevel") = .ok (.str (lit "info")) ∧
      getProp opts (lit "port") = .ok chrome.port :=
  ⟨options chrome, main_audit ops w chrome hlaunch, rfl, rfl, rfl, rfl⟩

theorem audit_configuration_witness :
    ∃ opts, audits (main decimal worldOk).trace = [(.str (lit "https://example.com/"), opts)] ∧
      getProp opts (lit "onlyCategories") = .ok (.arr [.str (lit "seo")]) ∧
      getProp opts (lit "output") = .ok (.str (lit "json")) ∧
      getProp opts (lit "logLevel") = .ok (.str (lit "info")) ∧
      getProp opts (lit "port") = .ok (.num 9222) :=
  audit_configuration decimal worldOk chrome0 rfl

/-- C7, as stated, fails when CHROME_PATH is set to the empty string: the `chromePath`
of the configuration the launcher receives is `undefined`, not the empty string. -/
theorem chrome_path_counterexample :
    worldEmptyChromePath.env (lit "CHROME_PATH") = some [] ∧
      launches (main decimal worldEmptyChromePath).trace = [launchConfig worldEmptyChromePath] ∧
      getProp (launchConfig worldEmptyChromePath) (lit "chromePath") = .ok .undefined ∧
      getProp (launchConfig worldEmptyChromePath) (lit "chromePath") ≠ .ok (.str []) :=
  ⟨rfl, rfl, rfl, fun h => by
    have h2 : (Except.ok JSVal.undefined : Except Err (JSVal Nat)) = .ok (.str []) := h
    cases h2⟩

/-- C7, amended. The configuration the launcher receives has `chromePath` equal to the
value of CHROME_PATH when that variable is set to a non-empty string, and `undefined`
when the variable is absent or empty. -/
theorem chrome_path_honoured (ops : NumberOps N) (w : World N) :
    ∃ config, launches (main ops w).trace = [config] ∧
      (∀ p, w.env (lit "CHROME_PATH") = some p → p ≠ [] →
        getProp config (lit "chromePath") = .ok (.str p)) ∧
      (w.env (lit "CHROME_PATH") = none ∨ w.env (lit "CHROME_PATH") = some [] →
        getProp config (lit "chromePath") = .ok .undefined) := by
  refine ⟨launchConfig w, (main_launch ops w).2, ?_, ?_⟩
  · intro p hp hne
    cases p with
    | nil => exact absurd rfl hne
    | cons c cs =>
      have : chromePath w = .str (c :: cs) := by simp [chromePath, hp]
      simp [launchConfig, getProp, this]
  · intro h
    have : chromePath w = .undefined := by
      rcases h with h | h <;> simp [chromePath, h]
    simp [launchConfig, getProp, this]

theorem chrome_path_honoured_witness :
    (∃ config, launches (main decimal worldChromePath).trace = [config] ∧
      getProp config (lit "chromePath") = .ok (.str (lit "/usr/bin/chromium"))) ∧
    (∃ config, launches (main decimal worldOk).trace = [config] ∧
      getProp config (lit "chromePath") = .ok .undefined) :=
  ⟨(chrome_path_honoured decimal worldChromePath).elim fun config h =>
      ⟨config, h.1, h.2.1 (lit "/usr/bin/chromium") rfl (by decide)⟩,
    (chrome_path_honoured decimal worldOk).elim fun config h =>
      ⟨config, h.1, h.2.2 (Or.inl rfl)⟩⟩

/-- C9. When the launcher rejects with `e`, the launcher was called exactly once, the
audit and the write were never called, the file system is as it was, and the run
rejects with `e`. -/
theorem launch_failure_is_fatal (ops : NumberOps N) (w : World N) (e : Err)
    (hlaunch : w.launch (launchConfig w) = .error e) :
    launches (main ops w).trace = [launchConfig w] ∧
      audits (main ops w).trace = [] ∧
      writes (main ops w).trace = [] ∧
      kills (main ops w).trace = [] ∧
      (main ops w).files = w.files ∧
      (main ops w).outcome = .error e := by
  rw [main_launch_error ops w e hlaunch]
  exact ⟨rfl, rfl, rfl, rfl, rfl, rfl⟩

theorem launch_failure_is_fatal_witness :
    launches (main decimal worldLaunchFails).trace = [launchConfig worldLaunchFails] ∧
      audits (main decimal worldLaunchFails).trace = [] ∧
      writes (main decimal worldLaunchFails).trace = [] ∧
      kills (main decimal worldLaunchFails).trace = [] ∧
      (main decimal worldLaunchFails).files = worldLaunchFails.files ∧
      (main decimal worldLaunchFails).outcome = .error ⟨"Error", "No Chrome installations found."⟩ :=
  launch_failure_is_fatal decimal worldLaunchFails ⟨"Error", "No Chrome installations found."⟩ rfl

/-- C10. In every run the first call is the one call of the launcher, and its
configuration has `chromeFlags` equal to `['--headless', '--no-sandbox']` and no `port`
property, whatever the arguments and the environment. -/
theorem browser_session_configuration (ops : NumberOps N) (w : World N) :
    ∃ config rest, (main ops w).trace = .launch config :: rest ∧
      launches (main ops w).trace = [config] ∧
      getProp config (lit "chromeFlags") =
        .ok (.arr [.str (lit "--headless"), .str (lit "--no-sandbox")]) ∧
      hasOwn config (lit "port") = false := by
  obtain ⟨⟨rest, hrest⟩, hl⟩ := main_launch ops w
  exact ⟨launchConfig w, rest, hrest, hl, rfl, rfl⟩

/-- C8. In every run, a call of `kill` is the last call and comes after a call of
`fs.writeFileSync` that succeeded; when the audit rejects, or when the write throws,
`kill` is never called and the run rejects with that same error. -/
theorem teardown_comes_last (ops : NumberOps N) (w : World N) :
    (∀ pre chrome post, (main ops w).trace = pre ++ .kill chrome :: post →
      post = [] ∧ ∃ path text, Event.writeFileSync path (some text) ∈ pre ∧
        w.writeFault w.files path text = none ∧
        (main ops w).files path = some (utf8Encode text)) ∧
    (∀ chrome e, w.launch (launchConfig w) = .ok chrome →
      w.lighthouse (url w) (options chrome) = .error e →
      kills (main ops w).trace = [] ∧ (main ops w).outcome = .error e) ∧
    (∀ chrome runnerResult reportJson e, w.launch (launchConfig w) = .ok chrome →
      w.lighthouse (url w) (options chrome) = .ok runnerResult →
      getProp runnerResult (lit "lhr") = .ok reportJson →
      (writeFileSync w (outputPath w) (JSON.stringify ops reportJson 2)).1 = some e →
      kills (main ops w).trace = [] ∧ (main ops w).outcome = .error e) := by
  refine ⟨?_, ?_, ?_⟩
  · intro pre chrome post h
    cases hl : w.launch (launchConfig w) with
    | error e =>
      rw [main_launch_error ops w e hl] at h
      rcases pre with _ | ⟨a, _ | ⟨b, pre⟩⟩ <;> simp at h
    | ok chrome1 =>
      cases ha : w.lighthouse (url w) (options chrome1) with
      | error e =>
        rw [main_audit_error ops w chrome1 e hl ha] at h
        rcases pre with _ | ⟨a, _ | ⟨b, _ | ⟨c, pre⟩⟩⟩ <;> simp at h
      | ok runnerResult =>
        cases hr : getProp runnerResult (lit "lhr") with
        | error e =>
          rw [main_lhr_error ops w chrome1 runnerResult e hl ha hr] at h
          rcases pre with _ | ⟨a, _ | ⟨b, _ | ⟨c, pre⟩⟩⟩ <;> simp at h
        | ok reportJson =>
          cases hw : writeFileSync w (outputPath w) (JSON.stringify ops reportJson 2) with
          | mk err files =>
            cases err with
            | some e =>
              rw [main_write_error ops w chrome1 runnerResult reportJson e files hl ha hr hw] at h
              rcases pre with _ | ⟨a, _ | ⟨b, _ | ⟨c, _ | ⟨d, pre⟩⟩⟩⟩ <;> simp at h
            | none =>
              have hrun := main_write_ok ops w chrome1 runnerResult reportJson files hl ha hr hw
              rw [hrun] at h
              rw [hrun]
              cases hs : JSON.stringify ops reportJson 2 with
              | none => simp [writeFileSync, hs] at hw
              | some text =>
                cases hf : w.writeFault w.files (outputPath w) text with
                | some ef => simp [writeFileSync, hs, hf] at hw
                | none =>
                  simp only [writeFileSync, hs, hf, Prod.mk.injEq, true_and] at hw
                  rcases pre with _ | ⟨a, _ | ⟨b, _ | ⟨c, _ | ⟨d, pre⟩⟩⟩⟩ <;> simp [hs] at h
                  obtain ⟨-, -, hc, -, hpost⟩ := h
                  refine ⟨hpost, outputPath w, text, ?_, hf, ?_⟩
                  · simp [hc]
                  · simp [← hw, Files.write]
  · intro chrome e hl ha
    rw [main_audit_error ops w chrome e hl ha]
    exact ⟨rfl, rfl⟩
  · intro chrome runnerResult reportJson e hl ha hr hw
    cases hw2 : writeFileSync w (outputPath w) (JSON.stringify ops reportJson 2) with
    | mk err files =>
      rw [hw2] at hw
      simp only at hw
      subst hw
      rw [main_write_error ops w chrome runnerResult reportJson e files hl ha hr hw2]
      exact ⟨rfl, rfl⟩

theorem teardown_comes_last_witness :
    (kills (main decimal worldAuditFails).trace = [] ∧
      (main decimal worldAuditFails).outcome = .error ⟨"LighthouseError", "NO_FCP"⟩) ∧
    (kills (main decimal worldWriteFails).trace = [] ∧
      (main decimal worldWriteFails).outcome = .error ⟨"Error", "EACCES: permission denied"⟩) ∧
    (∃ path text, Event.writeFileSync path (some text) ∈
        [Event.launch (launchConfig worldOk), Event.lighthouse (url worldOk) (options chrome0),
          Event.writeFileSync (lit "report.json") (JSON.stringify decimal report0 2)] ∧
      worldOk.writeFault worldOk.files path text = none ∧
      (main decimal worldOk).files path = some (utf8Encode text)) :=
  ⟨(teardown_comes_last decimal worldAuditFails).2.1 chrome0 _ rfl rfl,
    (teardown_comes_last decimal worldWriteFails).2.2 chrome0 (.obj [(lit "lhr", report0)])
      report0 _ rfl rfl rfl rfl,
    ((teardown_comes_last decimal worldOk).1
      [Event.launch (launchConfig worldOk), Event.lighthouse (url worldOk) (options chrome0),
        Event.writeFileSync (lit "report.json") (JSON.stringify decimal report0 2)]
      chrome0 [] rfl).2⟩

/-! ### The decimal naturals are lawful numbers -/

theorem decimalValue_append (ds : Str) (d : Nat) :
    decimalValue (ds ++ [d]) = 10 * decimalValue ds + (d - 48) := by
  simp [decimalValue, List.foldl_append]

theorem decimalDigits_spec (fuel n : Nat) (h : n < fuel) :
    (decimalDigits fuel n).all JSON.isDigit = true ∧ decimalValue (decimalDigits fuel n) = n ∧
      (n < 10 → decimalDigits fuel n = [48 + n]) ∧
      (10 ≤ n → ∃ c d ds, decimalDigits fuel n = c :: d :: ds ∧ 49 ≤ c ∧ c ≤ 57) := by
  induction fuel generalizing n with
  | zero => omega
  | succ fuel ih =>
    by_cases hn : n < 10
    · have hd : decimalDigits (fuel + 1) n = [48 + n] := by simp [decimalDigits, hn]
      rw [hd]
      refine ⟨?_, ?_, fun _ => rfl, fun h10 => by omega⟩
      · simp only [List.all_cons, List.all_nil, Bool.and_true, JSON.isDigit, Bool.and_eq_true,
          decide_eq_true_eq]
        omega
      · simp [decimalValue]
    · have hd : decimalDigits (fuel + 1) n = decimalDigits fuel (n / 10) ++ [48 + n % 10] := by
        simp [decimalDigits, hn]
      obtain ⟨hall, hval, hsmall, hbig⟩ := ih (n / 10) (by omega)
      rw [hd]
      refine ⟨?_, ?_, fun h10 => by omega, fun _ => ?_⟩
      · simp only [List.all_append, hall, List.all_cons, List.all_nil, Bool.and_true,
          Bool.true_and, JSON.isDigit, Bool.and_eq_true, decide_eq_true_eq]
        omega
      · rw [decimalValue_append, hval]
        omega
      · by_cases hq : n / 10 < 10
        · rw [hsmall hq]
          exact ⟨48 + n / 10, 48 + n % 10, [], rfl, by omega, by omega⟩
        · obtain ⟨c, d, ds, hcd, hc1, hc2⟩ := hbig (by omega)
          rw [hcd]
          exact ⟨c, d, ds ++ [48 + n % 10], rfl, hc1, hc2⟩

theorem isDigit_isNumberChar (ds : Str) (h : ds.all JSON.isDigit = true) :
    ds.all JSON.isNumberChar = true := by
  simp only [List.all_eq_true] at h ⊢
  intro c hc
  simp [JSON.isNumberChar, h c hc]

theorem decimal_lawful : JSON.Lawful decimal := by
  constructor
  · intro n _
    obtain ⟨hall, -, hsmall, hbig⟩ := decimalDigits_spec (n + 1) n (by omega)
    have hnum := isDigit_isNumberChar _ hall
    show ∃ c cs, decimalDigits (n + 1) n = c :: cs ∧ _
    by_cases hn : n < 10
    · rw [hsmall hn] at hall ⊢
      refine ⟨48 + n, [], rfl, ?_, rfl⟩
      simp only [List.all_cons, List.all_nil, Bool.and_true] at hall
      simp [JSON.startsNumber, hall]
    · obtain ⟨c, d, ds, hcd, hc1, hc2⟩ := hbig (by omega)
      rw [hcd] at hall hnum ⊢
      simp only [List.all_cons, Bool.and_eq_true] at hall hnum
      refine ⟨c, d :: ds, rfl, ?_, ?_⟩
      · simp [JSON.startsNumber, hall.1]
      · simp [hnum.2]
  · intro n _
    obtain ⟨hall, hval, hsmall, hbig⟩ := decimalDigits_spec (n + 1) n (by omega)
    show decimal.parse (decimalDigits (n + 1) n) = some n
    by_cases hn : n < 10
    · rw [hsmall hn] at hall ⊢
      simp only [List.all_cons, List.all_nil, Bool.and_true] at hall
      simp [decimal, hall]
    · obtain ⟨c, d, ds, hcd, hc1, hc2⟩ := hbig (by omega)
      rw [hcd] at hall hval ⊢
      simp only [List.all_cons, Bool.and_eq_true] at hall
      simp [decimal, hc1, hc2, hall.2.1, hall.2.2, hval]
      simpa using hall.2.2

/-! ### Report fidelity -/

/-- C1. When the launch and the audit succeed, `runnerResult.lhr` is a JSON document and
the write does not throw, the one call of `fs.writeFileSync` has the output path and the
text `JSON.stringify(lhr, null, 2)`, the file at the output path holds that text, and
`JSON.parse` of that text is `lhr` itself (for a runtime whose numbers round-trip). -/
theorem report_fidelity (ops : NumberOps N) (hops : JSON.Lawful ops) (w : World N)
    (chrome : Chrome N) (runnerResult lhr : JSVal N)
    (hlaunch : w.launch (launchConfig w) = .ok chrome)
    (haudit : w.lighthouse (url w) (options chrome) = .ok runnerResult)
    (hlhr : getProp runnerResult (lit "lhr") = .ok lhr)
    (hjson : JSON.isJson ops lhr = true)
    (hwrite : (writeFileSync w (outputPath w) (JSON.stringify ops lhr 2)).1 = none) :
    ∃ text, JSON.stringify ops lhr 2 = some text ∧
      writes (main ops w).trace = [(outputPath w, some text)] ∧
      (main ops w).files (outputPath w) = some (utf8Encode text) ∧
      JSON.parse ops text = some lhr := by
  obtain ⟨text, htext, hparse⟩ := JSON.parse_stringify ops hops 2 (by decide) lhr hjson
  refine ⟨text, htext, ?_, ?_, hparse⟩
  · cases hw : writeFileSync w (outputPath w) (JSON.stringify ops lhr 2) with
    | mk err files =>
      rw [hw] at hwrite
      simp only at hwrite
      subst hwrite
      rw [main_write_ok ops w chrome runnerResult lhr files hlaunch haudit hlhr hw, htext]
      rfl
  · rw [htext] at hwrite
    cases hf : w.writeFault w.files (outputPath w) text with
    | some ef => simp [writeFileSync, hf] at hwrite
    | none =>
      have hw : writeFileSync w (outputPath w) (JSON.stringify ops lhr 2) =
          (none, w.files.write w.resolve (outputPath w) (utf8Encode text)) := by
        simp [htext, writeFileSync, hf]
      rw [main_write_ok ops w chrome runnerResult lhr _ hlaunch haudit hlhr hw]
      simp [Files.write]

theorem report_fidelity_witness :
    ∃ text, JSON.stringify decimal report0 2 = some text ∧
      writes (main decimal worldOk).trace = [(lit "report.json", some text)] ∧
      (main decimal worldOk).files (lit "report.json") = some (utf8Encode text) ∧
      JSON.parse decimal text = some report0 :=
  report_fidelity decimal decimal_lawful worldOk chrome0 (.obj [(lit "lhr", report0)]) report0
    rfl rfl rfl (by decide) rfl

end RunLighthouse
